import Mathlib

/-
Shallow embedding of the extraction core of Project_Ocr:
  * extractor.py : ImportDeclarationExtractor.extract_field, extract_all_fields,
    the inline capture cleanup, and _flatten_dict;
  * app.py : append_to_master_json, append_to_master_csv, get_history.

Machine conventions of the embedding:
  * Python strings are Lean String (lists of characters underneath).
  * A regular expression pattern is modelled extensionally, by the outcome of
    re.search(pattern, text, re.MULTILINE | re.DOTALL | re.IGNORECASE) on each text
    (the re engine itself is outside the embedding; the claims quantify over rules).
  * A Python dict is an association list; dict keys are unique in Python, and the
    embedding mirrors dict assignment with pyDictSet (update first occurrence in
    place, else append).
  * An uncaught Python exception is Except.error ().
-/

namespace ProjectOcr

/-- Decidable equality for Except, so that concrete runs of the embedded fallible
functions can be evaluated inside decidable statements. -/
instance {ε α : Type} [DecidableEq ε] [DecidableEq α] : DecidableEq (Except ε α) :=
  fun x y =>
    match x, y with
    | Except.error a, Except.error b =>
        if h : a = b then Decidable.isTrue (by rw [h])
        else Decidable.isFalse (by intro hh; cases hh; exact h rfl)
    | Except.ok a, Except.ok b =>
        if h : a = b then Decidable.isTrue (by rw [h])
        else Decidable.isFalse (by intro hh; cases hh; exact h rfl)
    | Except.error _, Except.ok _ => Decidable.isFalse (by intro hh; cases hh)
    | Except.ok _, Except.error _ => Decidable.isFalse (by intro hh; cases hh)

/-- Whitespace characters recognised by Python str.strip() and by the regex class
backslash-s on the texts the embedding covers (the ASCII whitespace set). -/
def isPySpace (c : Char) : Bool :=
  c = ' ' || c = '\t' || c = '\n' || c = '\r' || c = '\x0b' || c = '\x0c'

/-- Python str.lstrip() on a character list. -/
def lstripL (l : List Char) : List Char := l.dropWhile isPySpace

/-- Python str.rstrip() on a character list. -/
def rstripL (l : List Char) : List Char := (l.reverse.dropWhile isPySpace).reverse

/-- Python str.strip() on a character list. -/
def stripL (l : List Char) : List Char := rstripL (lstripL l)

/-- The substitution re.sub(r"\*+", "", value): every maximal run of asterisks is
replaced by the empty string, i.e. every asterisk is deleted. -/
def removeStarsL (l : List Char) : List Char := l.filter (fun c => c ≠ '*')

/-- The substitution re.sub(r"\s+", " ", value): every maximal run of whitespace
characters is replaced by one space. -/
def collapseL : List Char → List Char
  | [] => []
  | [c] => if isPySpace c then [' '] else [c]
  | c :: d :: cs =>
      if isPySpace c then
        if isPySpace d then collapseL (d :: cs)
        else ' ' :: collapseL (d :: cs)
      else c :: collapseL (d :: cs)

/-- Python value.replace(chr 10, " "). -/
def replaceNlL (l : List Char) : List Char := l.map (fun c => if c = '\n' then ' ' else c)

/-- The cleanup that extract_field applies to a raw capture before the empty check, on
the character list: value = raw.strip(); value = re.sub(r"\*+", "", value);
value = re.sub(r"\s+", " ", value); value = value.replace(chr 10, " ").strip()
(extractor.py lines 741 to 745). -/
def normalizeL (l : List Char) : List Char :=
  stripL (replaceNlL (collapseL (removeStarsL (stripL l))))

/-- The capture cleanup of extract_field on Python strings. -/
def normalize_value (s : String) : String := ⟨normalizeL s.toList⟩

/-- Outcome of re.search(pattern, text, re.MULTILINE | re.DOTALL | re.IGNORECASE) for one
pattern on one text. raises models re.error escaping from re.search itself (a malformed
pattern), which in extract_field happens outside the try block. matched g0 gs models a
match object with group(0) = g0 and groups() = gs; a captured group that did not
participate in the match is none. -/
inductive SearchResult where
  | raises
  | noMatch
  | matched (group0 : String) (groups : List (Option String))
deriving DecidableEq

/-- A pattern, modelled extensionally by its re.search outcome on each text. -/
abbrev RePattern : Type := String → SearchResult

/-- One field of the schema: its human label and its ordered pattern list
(the dict literals inside ImportDeclarationExtractor.structure). -/
structure FieldConfig where
  label : String
  patterns : List RePattern

/-- The expression match.group(1).strip() if match.groups() else match.group(0).strip(),
before the strip: none when evaluating it raises inside the try block (group(1) was a
group that did not participate, so it is None and .strip() raises AttributeError). -/
def rawCandidate (g0 : String) (gs : List (Option String)) : Option String :=
  match gs with
  | [] => some g0
  | some s :: _ => some s
  | none :: _ => none

/-- The pattern loop of ImportDeclarationExtractor.extract_field (extractor.py lines
737 to 750). re.search raising (malformed pattern) is outside the try block, so it
escapes as Except.error (); an exception inside the try block hits the bare except and
continues with the next pattern; a value that cleans up to the empty string is falsy,
so the loop also continues. -/
def extract_field_go (text : String) : List RePattern → Except Unit (Option String)
  | [] => Except.ok none
  | p :: rest =>
      match p text with
      | SearchResult.raises => Except.error ()
      | SearchResult.noMatch => extract_field_go text rest
      | SearchResult.matched g0 gs =>
          match rawCandidate g0 gs with
          | none => extract_field_go text rest
          | some raw =>
              let value := normalize_value raw
              if value = "" then extract_field_go text rest else Except.ok (some value)

/-- ImportDeclarationExtractor.extract_field (extractor.py lines 734 to 750).
field_config.get("patterns", []) is the patterns field of the record. -/
def extract_field (text : String) (field_config : FieldConfig) : Except Unit (Option String) :=
  extract_field_go text field_config.patterns

/-- The schema self.structure: an ordered mapping of section name to an ordered mapping
of field name to field configuration (Python dicts keep insertion order). -/
abbrev Schema : Type := List (String × List (String × FieldConfig))

/-- The statistics dict built by extract_all_fields. extraction_rate is held as an exact
rational; Python computes it in binary floating point, which agrees with the exact value
on the divisions of small integers this code performs. -/
structure Statistics where
  total_fields : Nat
  extracted_fields : Nat
  missing_fields : List String
  extraction_rate : ℚ
deriving DecidableEq

/-- Round a rational to the nearest integer, ties to the even integer (the rounding of
Python round()), computed on the numerator and denominator: with f the floor of q and
rem the remainder of the floored division, the fractional part rem / d is compared to
one half by comparing 2 * rem with d. -/
def roundHalfEven (q : ℚ) : ℤ :=
  let n := q.num
  let d := (q.den : ℤ)
  let f := Int.fdiv n d
  let rem := n - f * d
  if 2 * rem < d then f
  else if d < 2 * rem then f + 1
  else if f % 2 = 0 then f else f + 1

/-- Python round(x, 2) on an exact rational value. -/
def pyRound2 (q : ℚ) : ℚ := (roundHalfEven (q * 100) : ℚ) / 100

/-- The extraction rate computation of extract_all_fields (extractor.py lines 784 to
787): round((extracted_fields / total_fields) * 100, 2). -/
def computed_rate (extracted total : Nat) : ℚ :=
  pyRound2 ((extracted : ℚ) / (total : ℚ) * 100)

/-- Python truthiness of the Optional[str] returned by extract_field. -/
def pyTruthy : Option String → Bool
  | none => false
  | some s => s ≠ ""

/-- The inner loop of extract_all_fields over the fields of one section (extractor.py
lines 772 to 781): per field, total_fields increments, extract_field runs, and a truthy
value is recorded (extracted_fields increments) while a falsy one records "" and appends
"section.field" to missing_fields. An exception from extract_field propagates. -/
def extract_section (text section_name : String) :
    List (String × FieldConfig) → Statistics → Except Unit (List (String × String) × Statistics)
  | [], st => Except.ok ([], st)
  | (field_name, field_config) :: rest, st =>
      let st1 := { st with total_fields := st.total_fields + 1 }
      match extract_field text field_config with
      | Except.error e => Except.error e
      | Except.ok v =>
          if pyTruthy v then
            match extract_section text section_name rest
                { st1 with extracted_fields := st1.extracted_fields + 1 } with
            | Except.error e => Except.error e
            | Except.ok (rows, st2) => Except.ok ((field_name, v.getD "") :: rows, st2)
          else
            match extract_section text section_name rest
                { st1 with missing_fields :=
                    st1.missing_fields ++ [section_name ++ "." ++ field_name] } with
            | Except.error e => Except.error e
            | Except.ok (rows, st2) => Except.ok ((field_name, "") :: rows, st2)

/-- The outer loop of extract_all_fields over the sections of the schema (extractor.py
lines 770 to 781). -/
def extract_sections (text : String) :
    Schema → Statistics → Except Unit (List (String × List (String × String)) × Statistics)
  | [], st => Except.ok ([], st)
  | (section_name, fields) :: rest, st =>
      match extract_section text section_name fields st with
      | Except.error e => Except.error e
      | Except.ok (rows, st2) =>
          match extract_sections text rest st2 with
          | Except.error e => Except.error e
          | Except.ok (secs, st3) => Except.ok ((section_name, rows) :: secs, st3)

/-- A value of the result dict returned by extract_all_fields: a section holds its
field-to-value dict, and the key "_statistics" holds the statistics dict. -/
inductive TopVal where
  | fields (rows : List (String × String))
  | stats (st : Statistics)
deriving DecidableEq

/-- Python dict assignment d[k] = v on an association list with unique keys: the first
entry with key k is updated in place (its position kept); if the key is absent the
entry is appended at the end. -/
def pyDictSet (k : String) (v : TopVal) : List (String × TopVal) → List (String × TopVal)
  | [] => [(k, v)]
  | (k1, v1) :: rest => if k1 = k then (k1, v) :: rest else (k1, v1) :: pyDictSet k v rest

/-- The mutable state of an ImportDeclarationExtractor instance used by
extract_all_fields: self.extracted_text (set to "" in the constructor). -/
structure ExtractorState where
  extracted_text : String
deriving DecidableEq

/-- The value of self.extracted_text right after ImportDeclarationExtractor.__init__
(extractor.py line 134). -/
def init_state : ExtractorState := ⟨""⟩

/-- ImportDeclarationExtractor.extract_all_fields (extractor.py lines 752 to 790).
structure_ is self.structure, st0 the extracted_text before the call, text? the optional
argument. The first component is the returned dict (section entries plus the
"_statistics" key assigned last) or the escaping exception; the second is the
extracted_text after the call, updated before the extraction loop runs. -/
def extract_all_fields (structure_ : Schema) (st0 : ExtractorState) (text? : Option String) :
    Except Unit (List (String × TopVal)) × ExtractorState :=
  let text := match text? with | none => st0.extracted_text | some t => t
  let st1 : ExtractorState := match text? with | none => st0 | some t => ⟨t⟩
  match extract_sections text structure_ ⟨0, 0, [], 0⟩ with
  | Except.error e => (Except.error e, st1)
  | Except.ok (secs, stats) =>
      let rate := computed_rate stats.extracted_fields stats.total_fields
      let stats2 := if stats.total_fields > 0
        then { stats with extraction_rate := rate }
        else stats
      (Except.ok (pyDictSet "_statistics" (TopVal.stats stats2)
        (secs.map (fun sv => (sv.1, TopVal.fields sv.2)))), st1)

/-- State of the content of a JSON backing file, as the reading code observes it:
the file does not exist (open raises FileNotFoundError), it exists but json.load raises
(JSONDecodeError, a truncated or corrupt file), or it parses to a list of entries. -/
inductive StoreState (α : Type) where
  | missing
  | corrupt
  | valid (data : List α)
deriving DecidableEq

/-- app.append_to_master_json (app.py lines 47 to 59): read the whole list, treating
FileNotFoundError and JSONDecodeError as the empty list, append the record, rewrite the
whole file. The value is the full list persisted back. -/
def append_to_master_json {α : Type} (record : α) : StoreState α → List α
  | StoreState.valid data => data ++ [record]
  | StoreState.missing => [] ++ [record]
  | StoreState.corrupt => [] ++ [record]

/-- The Python list slice l[-n:]: the last n elements (all of them when the list is
shorter than n). -/
def takeLast {α : Type} (n : Nat) (l : List α) : List α := l.drop (l.length - n)

/-- app.get_history (app.py lines 77 to 89): a missing file gives the empty list, the
valid case gives data[-50:][::-1], and any exception (json.load failing on a truncated
or corrupt file) is caught and also gives the empty list. -/
def get_history {α : Type} : StoreState α → List α
  | StoreState.missing => []
  | StoreState.corrupt => []
  | StoreState.valid data => (takeLast 50 data).reverse

/-- app.append_to_master_csv (app.py lines 61 to 69). The CSV file is modelled as the
list of its rows, each row a list of cells; none is an absent file. csv.DictWriter is
constructed with fieldnames = flat_data.keys(), so the header (written only when the
file did not exist before the open in append mode) and the data row are both produced
from the keys of the row being appended, in their dict order. -/
def append_to_master_csv (flat_data : List (String × String)) :
    Option (List (List String)) → List (List String)
  | none => [flat_data.map Prod.fst, flat_data.map Prod.snd]
  | some rows => rows ++ [flat_data.map Prod.snd]

/-- Modelled from the spec wording of the tabular append: a row written after the first
is restricted to the column set frozen by the first row, so keys outside the stored
header are dropped (an absent column value stays empty). -/
def specProjectRow (header : List String) (flat_data : List (String × String)) :
    List String :=
  header.map (fun k => ((flat_data.lookup k).getD ""))

/-- A JSON-like nested value as _flatten_dict sees it: a leaf or a nested dict
(an ordered association list, Python dicts keep insertion order). -/
inductive Nested (α : Type) where
  | leaf (a : α)
  | node (d : List (String × Nested α))

/-- The key construction of _flatten_dict (extractor.py line 824):
new_key is parent_key followed by sep and k when parent_key is truthy, else k itself. -/
def joinKey (sep parent_key k : String) : String :=
  if parent_key ≠ "" then parent_key ++ sep ++ k else k

mutual
/-- ImportDeclarationExtractor._flatten_dict, the handling of one value v stored under
new_key (extractor.py lines 825 to 828): a dict recurses with new_key as parent, any
other value becomes the item (new_key, v). -/
def flattenVal {α : Type} (sep new_key : String) : Nested α → List (String × α)
  | Nested.leaf a => [(new_key, a)]
  | Nested.node d => flattenEntries sep new_key d

/-- ImportDeclarationExtractor._flatten_dict, the loop over d.items() (extractor.py
lines 822 to 829). The Python function returns dict(items); with pairwise distinct
produced keys that dict is exactly this association list. -/
def flattenEntries {α : Type} (sep parent_key : String) :
    List (String × Nested α) → List (String × α)
  | [] => []
  | (k, v) :: rest =>
      flattenVal sep (joinKey sep parent_key k) v ++ flattenEntries sep parent_key rest
end

/-- ImportDeclarationExtractor._flatten_dict with its default arguments
(parent_key = "", sep = "_"), as app.py calls it. -/
def flatten_dict {α : Type} (d : List (String × Nested α)) : List (String × α) :=
  flattenEntries "_" "" d

/-- Modelled from the spec wording of the flattener key rule: a nesting path is joined
with the fixed separator "_", one join per nesting level. -/
def joinPath : List String → String
  | [] => ""
  | [k] => k
  | k :: l :: rest => k ++ "_" ++ joinPath (l :: rest)

mutual
/-- The leaves below one nested value, each with its full key path, in traversal
order (the reference enumeration the flattener is compared against). -/
def leavesVal {α : Type} (path : List String) : Nested α → List (List String × α)
  | Nested.leaf a => [(path, a)]
  | Nested.node d => leavesEntries path d

/-- The leaves below the entries of one nested dict, each with its full key path,
in traversal order. -/
def leavesEntries {α : Type} (path : List String) :
    List (String × Nested α) → List (List String × α)
  | [] => []
  | (k, v) :: rest => leavesVal (path ++ [k]) v ++ leavesEntries path rest
end

/-- Modelled from the spec wording of the flattener: every leaf of the nested mapping,
in traversal order, keyed by its nesting path joined with "_". -/
def specFlatten {α : Type} (d : List (String × Nested α)) : List (String × α) :=
  (leavesEntries [] d).map (fun pa => (joinPath pa.1, pa.2))

mutual
/-- Every dict key below this nested value is a non-empty string. -/
def goodKeysVal {α : Type} : Nested α → Bool
  | Nested.leaf _ => true
  | Nested.node d => goodKeysEntries d

/-- Every dict key among these entries and below them is a non-empty string. -/
def goodKeysEntries {α : Type} : List (String × Nested α) → Bool
  | [] => true
  | (k, v) :: rest => (k != "") && goodKeysVal v && goodKeysEntries rest
end

/-- Spec-side field extraction, following the claim wording: the value is the cleaned
candidate of the first rule in declaration order that matches and whose cleaned
candidate is non-empty; a matching rule whose candidate is unavailable (its first group
did not participate: a rule-level exception under the error policy) or cleans up to ""
is skipped; when no rule yields a non-empty cleaned value the field is absent. -/
def spec_first_match (text : String) : List RePattern → Option String
  | [] => none
  | p :: rest =>
      match p text with
      | SearchResult.matched g0 gs =>
          match rawCandidate g0 gs with
          | some raw =>
              if normalize_value raw = "" then spec_first_match text rest
              else some (normalize_value raw)
          | none => spec_first_match text rest
      | _ => spec_first_match text rest

/-- The list head is not whitespace (or the list is empty): the shape of a
left-stripped string. -/
def noLeadWs : List Char → Bool
  | [] => true
  | c :: _ => !(isPySpace c)

/-- The last element is not whitespace (or the list is empty): the shape of a
right-stripped string. -/
def noTrailWs (l : List Char) : Bool := noLeadWs l.reverse

/-- No two adjacent characters are both whitespace: the shape of a string whose
whitespace runs are collapsed. -/
def noAdjWs : List Char → Bool
  | a :: b :: t => (!(isPySpace a) || !(isPySpace b)) && noAdjWs (b :: t)
  | _ => true

/-- Every whitespace character in the list is a plain space. -/
def wsSpaceOnly (l : List Char) : Bool := l.all (fun c => !(isPySpace c) || c == ' ')

/-- The list holds no asterisk. -/
def noStar (l : List Char) : Bool := l.all (fun c => c ≠ '*')

/-- The first entry of the result dict stored under the key "_statistics"
(how a caller such as app.py reads result["_statistics"]). -/
def getStats : List (String × TopVal) → Option Statistics
  | [] => none
  | (k, v) :: rest =>
      if k = "_statistics" then
        match v with
        | TopVal.stats s => some s
        | TopVal.fields _ => none
      else getStats rest

/-- The field names recorded under one top-level value of the result dict: a section
gives its field-name list, the statistics value gives none. -/
def topKeys : TopVal → Option (List String)
  | TopVal.fields rows => some (rows.map Prod.fst)
  | TopVal.stats _ => none

/-- Does the result dict hold, under section s, a field entry named f. -/
def hasFieldEntry (out : List (String × TopVal)) (s f : String) : Bool :=
  out.any (fun kv =>
    kv.1 = s &&
      match kv.2 with
      | TopVal.fields rows => rows.any (fun r => r.1 = f)
      | TopVal.stats _ => false)

/-- The number of fields declared by a schema. -/
def fieldCount : Schema → Nat
  | [] => 0
  | (_, fields) :: rest => fields.length + fieldCount rest

/-- The fully qualified "section.field" names of a schema, in declaration order. -/
def qualifiedNames : Schema → List String
  | [] => []
  | (section_name, fields) :: rest =>
      fields.map (fun fc => section_name ++ "." ++ fc.1) ++ qualifiedNames rest

/-- Faithfulness of a modelled pattern to the re engine on the empty text: re.search on
"" either finds no match or raises on a malformed pattern never happens here, and a
match object over the empty text has group(0) = "" and every participating group "". -/
def emptyTextOk (p : RePattern) : Prop :=
  p "" = SearchResult.noMatch ∨
    ∃ gs, p "" = SearchResult.matched "" gs ∧ ∀ g ∈ gs, g = none ∨ g = some ""

/-- A pattern standing for r"NUM:\s*(\d+)" as re.search behaves on the two texts of the
spec scenario: on "NUM: 4521" it matches with the group capturing "4521", elsewhere in
the embedding it finds nothing. -/
def numPat : RePattern := fun text =>
  if text = "NUM: 4521" then SearchResult.matched "NUM: 4521" [some "4521"]
  else SearchResult.noMatch

/-- The field configuration of the spec scenario: one field with the single rule
numPat. -/
def numCfg : FieldConfig := ⟨"Num", [numPat]⟩

/-- The schema of the spec scenario: one section declaration with one field number. -/
def numSchema : Schema := [("declaration", [("number", numCfg)])]

/-- A malformed pattern: re.search raises re.error on it for every text. -/
def badPat : RePattern := fun _ => SearchResult.raises

/-- A pattern that matches the text "X" whole with no capture group. -/
def okPat : RePattern := fun text =>
  if text = "X" then SearchResult.matched "X" [] else SearchResult.noMatch

/-- A pattern that always matches with one capture group that did not participate,
so match.group(1) is None and the candidate expression raises inside the try block. -/
def nonePat : RePattern := fun text => SearchResult.matched text [none]

/-- A pattern that never matches. -/
def neverPat : RePattern := fun _ => SearchResult.noMatch

/-- A schema whose single section is literally named "_statistics", with one field f
whose single rule never matches. -/
def statsSchema : Schema := [("_statistics", [("f", ⟨"F", [neverPat]⟩)])]

/-- The result dict that extract_all_fields returns on statsSchema: the final
assignment results["_statistics"] = statistics overwrote the section entry, so the
field entry for f is gone. -/
def statsSchemaOut : List (String × TopVal) :=
  [("_statistics", TopVal.stats ⟨1, 0, ["_statistics.f"], 0⟩)]

theorem all_dropWhile {q p : Char → Bool} {l : List Char} (h : l.all q = true) :
    (l.dropWhile p).all q = true := by
  induction l with
  | nil => exact h
  | cons c t ih =>
      simp only [List.all_cons, Bool.and_eq_true] at h
      by_cases hc : p c
      · rw [List.dropWhile_cons, if_pos hc]
        exact ih h.2
      · rw [List.dropWhile_cons, if_neg hc]
        simp only [List.all_cons, Bool.and_eq_true]
        exact ⟨h.1, h.2⟩

theorem noLeadWs_dropWhile (l : List Char) : noLeadWs (l.dropWhile isPySpace) = true := by
  induction l with
  | nil => rfl
  | cons c t ih =>
      by_cases hc : isPySpace c
      · simpa [List.dropWhile_cons, hc] using ih
      · simp only [Bool.not_eq_true] at hc
        simp [List.dropWhile_cons, hc, noLeadWs]

theorem dropWhile_eq_self (l : List Char) (h : noLeadWs l = true) :
    l.dropWhile isPySpace = l := by
  cases l with
  | nil => rfl
  | cons c t =>
      simp only [noLeadWs, Bool.not_eq_true'] at h
      simp [List.dropWhile_cons, h]

theorem exists_append_dropWhile (l : List Char) :
    ∃ s, s ++ l.dropWhile isPySpace = l := by
  induction l with
  | nil => exact ⟨[], rfl⟩
  | cons c t ih =>
      by_cases hc : isPySpace c
      · obtain ⟨s, hs⟩ := ih
        exact ⟨c :: s, by simp [List.dropWhile_cons, hc, hs]⟩
      · exact ⟨[], by simp [List.dropWhile_cons, hc]⟩

theorem noTrailWs_rstrip (l : List Char) : noTrailWs (rstripL l) = true := by
  have h := noLeadWs_dropWhile l.reverse
  simpa [noTrailWs, rstripL] using h

theorem rstrip_eq_self (l : List Char) (h : noTrailWs l = true) : rstripL l = l := by
  unfold rstripL
  rw [dropWhile_eq_self l.reverse h, List.reverse_reverse]

theorem exists_rstrip_append (l : List Char) : ∃ t, rstripL l ++ t = l := by
  obtain ⟨s, hs⟩ := exists_append_dropWhile l.reverse
  refine ⟨s.reverse, ?_⟩
  have h := congrArg List.reverse hs
  simpa [rstripL, List.reverse_append] using h

theorem noLeadWs_append_left (x t : List Char) (h : noLeadWs (x ++ t) = true) :
    noLeadWs x = true := by
  cases x with
  | nil => rfl
  | cons c y => simpa [noLeadWs] using h

theorem noAdjWs_tail {a : Char} {t : List Char} (h : noAdjWs (a :: t) = true) :
    noAdjWs t = true := by
  cases t with
  | nil => rfl
  | cons b u =>
      simp only [noAdjWs, Bool.and_eq_true] at h
      exact h.2

theorem noAdjWs_dropWhile (l : List Char) (h : noAdjWs l = true) :
    noAdjWs (l.dropWhile isPySpace) = true := by
  induction l with
  | nil => exact h
  | cons c t ih =>
      by_cases hc : isPySpace c
      · simpa [List.dropWhile_cons, hc] using ih (noAdjWs_tail h)
      · simpa [List.dropWhile_cons, hc] using h

theorem noAdjWs_append_left (x t : List Char) (h : noAdjWs (x ++ t) = true) :
    noAdjWs x = true := by
  induction x with
  | nil => rfl
  | cons a y ih =>
      cases y with
      | nil => rfl
      | cons b z =>
          simp only [List.cons_append, noAdjWs, Bool.and_eq_true] at h ⊢
          exact ⟨h.1, ih (by simpa [List.cons_append] using h.2)⟩

theorem collapse_cons_nonws (c : Char) (cs : List Char) (h : isPySpace c = false) :
    collapseL (c :: cs) = c :: collapseL cs := by
  cases cs with
  | nil => simp [collapseL, h]
  | cons d t => simp [collapseL, h]

theorem collapse_all {q : Char → Bool} (hq : q ' ' = true) :
    ∀ l : List Char, l.all q = true → (collapseL l).all q = true := by
  intro l
  induction l with
  | nil => intro h; exact h
  | cons c t ih =>
      intro h
      simp only [List.all_cons, Bool.and_eq_true] at h
      cases t with
      | nil =>
          by_cases hc : isPySpace c
          · simp [collapseL, hc, hq]
          · simp [collapseL, hc, h.1]
      | cons d u =>
          by_cases hc : isPySpace c
          · by_cases hd : isPySpace d
            · simpa [collapseL, hc, hd] using ih h.2
            · simpa [collapseL, hc, hd, hq] using ih h.2
          · simpa [collapseL, hc, h.1] using ih h.2

theorem wsSpaceOnly_collapse (l : List Char) : wsSpaceOnly (collapseL l) = true := by
  induction l with
  | nil => rfl
  | cons c t ih =>
      cases t with
      | nil =>
          by_cases hc : isPySpace c
          · simp [collapseL, hc, wsSpaceOnly]
          · simp [collapseL, hc, wsSpaceOnly]
      | cons d u =>
          by_cases hc : isPySpace c
          · by_cases hd : isPySpace d
            · simpa [collapseL, hc, hd] using ih
            · simpa [collapseL, hc, hd, wsSpaceOnly] using ih
          · simpa [collapseL, hc, wsSpaceOnly] using ih

theorem noLeadWs_collapse_of (d : Char) (u : List Char) (hd : isPySpace d = false) :
    noLeadWs (collapseL (d :: u)) = true := by
  rw [collapse_cons_nonws d u hd]
  simp [noLeadWs, hd]

theorem noAdjWs_cons (c : Char) (X : List Char) (hX : noAdjWs X = true)
    (hc : isPySpace c = false ∨ noLeadWs X = true) : noAdjWs (c :: X) = true := by
  cases X with
  | nil => rfl
  | cons b y =>
      simp only [noAdjWs, Bool.and_eq_true]
      refine ⟨?_, hX⟩
      cases hc with
      | inl h => simp [h]
      | inr h =>
          simp only [noLeadWs, Bool.not_eq_true'] at h
          simp [h]

theorem noAdjWs_collapse (l : List Char) : noAdjWs (collapseL l) = true := by
  induction l with
  | nil => rfl
  | cons c t ih =>
      cases t with
      | nil =>
          by_cases hc : isPySpace c <;> simp [collapseL, hc, noAdjWs]
      | cons d u =>
          by_cases hc : isPySpace c
          · by_cases hd : isPySpace d
            · simpa [collapseL, hc, hd] using ih
            · have hd2 : isPySpace d = false := by simpa using hd
              have h2 := noAdjWs_cons ' ' (collapseL (d :: u)) ih
                (Or.inr (noLeadWs_collapse_of d u hd2))
              simpa [collapseL, hc, hd] using h2
          · have hc2 : isPySpace c = false := by simpa using hc
            have h2 := noAdjWs_cons c (collapseL (d :: u)) ih (Or.inl hc2)
            simpa [collapseL, hc] using h2

theorem collapse_eq_self (l : List Char) (h1 : wsSpaceOnly l = true)
    (h2 : noAdjWs l = true) : collapseL l = l := by
  induction l with
  | nil => rfl
  | cons c t ih =>
      simp only [wsSpaceOnly, List.all_cons, Bool.and_eq_true] at h1
      cases t with
      | nil =>
          by_cases hc : isPySpace c
          · have : c = ' ' := by
              rcases Bool.or_eq_true_iff.mp h1.1 with h | h
              · simp [hc] at h
              · exact eq_of_beq h
            simp [collapseL, hc, this]
          · simp [collapseL, hc]
      | cons d u =>
          simp only [noAdjWs, Bool.and_eq_true] at h2
          by_cases hc : isPySpace c
          · have hceq : c = ' ' := by
              rcases Bool.or_eq_true_iff.mp h1.1 with h | h
              · simp [hc] at h
              · exact eq_of_beq h
            have hd : isPySpace d = false := by
              rcases Bool.or_eq_true_iff.mp h2.1 with h | h
              · simp [hc] at h
              · simpa using h
            have ihr := ih h1.2 h2.2
            simp [collapseL, hc, hd, ihr, hceq]
          · have ihr := ih h1.2 h2.2
            simp [collapseL, hc, ihr]

theorem replaceNl_eq_self (l : List Char) (h : wsSpaceOnly l = true) :
    replaceNlL l = l := by
  induction l with
  | nil => rfl
  | cons c t ih =>
      simp only [wsSpaceOnly, List.all_cons, Bool.and_eq_true] at h
      have hc : ¬(c = '\n') := by
        intro hcn
        subst hcn
        exact absurd h.1 (by decide)
      have iht := ih h.2
      unfold replaceNlL at iht ⊢
      rw [List.map_cons, iht, if_neg hc]

theorem noStar_removeStars (l : List Char) : noStar (removeStarsL l) = true := by
  induction l with
  | nil => rfl
  | cons c t ih =>
      by_cases hc : c = '*'
      · rw [removeStarsL, List.filter_cons, if_neg (by simp [hc])]
        exact ih
      · rw [removeStarsL, List.filter_cons, if_pos (by simp [hc])]
        simp only [noStar, List.all_cons, Bool.and_eq_true, decide_eq_true_eq]
        exact ⟨hc, ih⟩

theorem removeStars_eq_self (l : List Char) (h : noStar l = true) :
    removeStarsL l = l := by
  induction l with
  | nil => rfl
  | cons c t ih =>
      simp only [noStar, List.all_cons, Bool.and_eq_true, decide_eq_true_eq] at h
      have iht := ih h.2
      unfold removeStarsL at iht ⊢
      rw [List.filter_cons]
      simp only [iht]
      simp [h.1]

theorem all_stripL {q : Char → Bool} (l : List Char) (h : l.all q = true) :
    (stripL l).all q = true := by
  unfold stripL rstripL lstripL
  have h1 : (l.dropWhile isPySpace).all q = true := all_dropWhile h
  have h2 : ((l.dropWhile isPySpace).reverse).all q = true := by
    simpa [List.all_reverse] using h1
  have h3 := all_dropWhile (p := isPySpace) h2
  simpa [List.all_reverse] using h3

theorem noAdjWs_stripL (l : List Char) (h : noAdjWs l = true) :
    noAdjWs (stripL l) = true := by
  have h1 : noAdjWs (lstripL l) = true := noAdjWs_dropWhile l h
  obtain ⟨t, ht⟩ := exists_rstrip_append (lstripL l)
  unfold stripL
  exact noAdjWs_append_left _ t (by rwa [ht])

theorem noLeadWs_stripL (l : List Char) : noLeadWs (stripL l) = true := by
  have h1 : noLeadWs (lstripL l) = true := noLeadWs_dropWhile l
  obtain ⟨t, ht⟩ := exists_rstrip_append (lstripL l)
  unfold stripL
  exact noLeadWs_append_left _ t (by rwa [ht])

theorem strip_eq_self (l : List Char) (h1 : noLeadWs l = true) (h2 : noTrailWs l = true) :
    stripL l = l := by
  unfold stripL lstripL
  rw [dropWhile_eq_self l h1]
  exact rstrip_eq_self l h2

theorem normalizeL_shape (l : List Char) :
    wsSpaceOnly (normalizeL l) = true ∧ noAdjWs (normalizeL l) = true
    ∧ noLeadWs (normalizeL l) = true ∧ noTrailWs (normalizeL l) = true := by
  unfold normalizeL
  have hws : wsSpaceOnly (collapseL (removeStarsL (stripL l))) = true :=
    wsSpaceOnly_collapse _
  rw [replaceNl_eq_self _ hws]
  exact ⟨all_stripL _ hws, noAdjWs_stripL _ (noAdjWs_collapse _), noLeadWs_stripL _,
    noTrailWs_rstrip _⟩

theorem noStar_normalizeL (l : List Char) : noStar (normalizeL l) = true := by
  unfold normalizeL
  have h1 : noStar (removeStarsL (stripL l)) = true := noStar_removeStars _
  have h2 : noStar (collapseL (removeStarsL (stripL l))) = true :=
    collapse_all (by decide) _ h1
  have hws : wsSpaceOnly (collapseL (removeStarsL (stripL l))) = true :=
    wsSpaceOnly_collapse _
  rw [replaceNl_eq_self _ hws]
  exact all_stripL _ h2

theorem normalizeL_idem (l : List Char) : normalizeL (normalizeL l) = normalizeL l := by
  obtain ⟨hws, hadj, hlead, htrail⟩ := normalizeL_shape l
  have hstar := noStar_normalizeL l
  set out := normalizeL l with hout
  show normalizeL out = out
  unfold normalizeL
  rw [strip_eq_self out hlead htrail, removeStars_eq_self out hstar,
    collapse_eq_self out hws hadj, replaceNl_eq_self out hws,
    strip_eq_self out hlead htrail]

theorem normalize_value_idem (s : String) :
    normalize_value (normalize_value s) = normalize_value s :=
  congrArg String.mk (normalizeL_idem s.toList)

/-- C5: normalization of a raw capture strips all runs of asterisks, collapses every run
of whitespace (embedded newlines included) into a single space, and trims leading and
trailing whitespace (the output has no asterisk, its whitespace characters are single
plain spaces, never adjacent, and never at either end); it is idempotent; and in
particular it sends "**1,234.56**" to "1,234.56" and "A\n\n  B" to "A B". -/
theorem C5_normalization :
    (∀ s : String, normalize_value (normalize_value s) = normalize_value s)
    ∧ (∀ s : String, noStar (normalize_value s).toList = true)
    ∧ (∀ s : String, wsSpaceOnly (normalize_value s).toList = true
        ∧ noAdjWs (normalize_value s).toList = true
        ∧ noLeadWs (normalize_value s).toList = true
        ∧ noTrailWs (normalize_value s).toList = true)
    ∧ normalize_value "**1,234.56**" = "1,234.56"
    ∧ normalize_value "A\n\n  B" = "A B" := by
  refine ⟨normalize_value_idem, ?_, ?_, by decide, by decide⟩
  · intro s
    exact noStar_normalizeL s.toList
  · intro s
    exact normalizeL_shape s.toList

theorem extract_field_go_spec (text : String) (ps : List RePattern)
    (h : ∀ p ∈ ps, p text ≠ SearchResult.raises) :
    extract_field_go text ps = Except.ok (spec_first_match text ps) := by
  induction ps with
  | nil => rfl
  | cons p rest ih =>
      have hp : p text ≠ SearchResult.raises := h p (List.mem_cons_self p rest)
      have hrest : ∀ q ∈ rest, q text ≠ SearchResult.raises :=
        fun q hq => h q (List.mem_cons_of_mem p hq)
      cases hpt : p text with
      | raises => exact absurd hpt hp
      | noMatch =>
          simp only [extract_field_go, spec_first_match, hpt]
          exact ih hrest
      | matched g0 gs =>
          simp only [extract_field_go, spec_first_match, hpt]
          cases hc : rawCandidate g0 gs with
          | none =>
              simp only [hc]
              exact ih hrest
          | some raw =>
              by_cases hv : normalize_value raw = ""
              · simpa [hc, hv] using ih hrest
              · simp [hc, hv]

/-- C2: for every field definition and every text on which none of its rules raises at
search time, the value extract_field returns is the cleaned candidate of the first rule
in declaration order that matches and whose cleaned candidate is non-empty (the first
capture group text when the rule has groups, else the whole matched span); a rule that
matches but cleans to the empty string is skipped and the next rule is tried; when no
rule yields a non-empty cleaned value the field is absent (None). -/
theorem C2_first_match_wins (text : String) (field_config : FieldConfig)
    (h : ∀ p ∈ field_config.patterns, p text ≠ SearchResult.raises) :
    extract_field text field_config
      = Except.ok (spec_first_match text field_config.patterns) :=
  extract_field_go_spec text field_config.patterns h

/-- Witness for C2: the spec scenario rule set on the text "NUM: 4521" extracts "4521"
through the first (and only) rule. -/
theorem C2_witness :
    extract_field "NUM: 4521" numCfg = Except.ok (some "4521") := by
  have h := C2_first_match_wins "NUM: 4521" numCfg (by decide)
  rw [h]
  decide

/-- C1 corrected: an exception raised inside the try block after a successful match
(here: the first capture group did not participate, so .strip() on None raises) is
recovered by the bare except and extraction continues with the next rule; but a
malformed pattern makes re.search raise outside the try block, so extract_field
propagates the exception for the whole call instead of skipping that rule. -/
theorem C1_rule_error_policy (text lab : String) (p : RePattern) (ps : List RePattern) :
    ((∃ g0 gs, p text = SearchResult.matched g0 gs ∧ rawCandidate g0 gs = none) →
        extract_field text ⟨lab, p :: ps⟩ = extract_field text ⟨lab, ps⟩)
    ∧ (p text = SearchResult.raises →
        extract_field text ⟨lab, p :: ps⟩ = Except.error ()) := by
  constructor
  · rintro ⟨g0, gs, hm, hc⟩
    simp [extract_field, extract_field_go, hm, hc]
  · intro hr
    simp [extract_field, extract_field_go, hr]

/-- C1 counterexample: with a malformed first rule and a second rule matching the text
"X" whole, extract_field raises (Except.error, the uncaught re.error) instead of
treating the bad rule as a non-match; under the claim the field would extract to "X",
which is what the spec-side first-match semantics yields on the same rules. -/
theorem C1_counterexample :
    extract_field "X" ⟨"f", [badPat, okPat]⟩ = Except.error ()
    ∧ spec_first_match "X" [badPat, okPat] = some "X" := by
  decide

/-- Witness for C1: a concrete in-try failure is skipped (first conjunct), a concrete
malformed pattern aborts (second conjunct). -/
theorem C1_witness :
    extract_field "X" ⟨"f", [nonePat, okPat]⟩ = extract_field "X" ⟨"f", [okPat]⟩
    ∧ extract_field "X" ⟨"f", [badPat, okPat]⟩ = Except.error () :=
  ⟨(C1_rule_error_policy "X" "f" nonePat [okPat]).1 ⟨"X", [none], rfl, rfl⟩,
    (C1_rule_error_policy "X" "f" badPat [okPat]).2 rfl⟩

theorem extract_section_ok (text sn : String) (fields : List (String × FieldConfig)) :
    ∀ (st st2 : Statistics) (rows : List (String × String)),
      extract_section text sn fields st = Except.ok (rows, st2) →
      rows.map Prod.fst = fields.map Prod.fst
      ∧ st2.total_fields = st.total_fields + fields.length
      ∧ st2.extracted_fields + st2.missing_fields.length
          = st.extracted_fields + st.missing_fields.length + fields.length
      ∧ st2.extraction_rate = st.extraction_rate := by
  induction fields with
  | nil =>
      intro st st2 rows h
      simp only [extract_section, Except.ok.injEq, Prod.mk.injEq] at h
      obtain ⟨h1, h2⟩ := h
      subst h1
      subst h2
      simp
  | cons hd tl ih =>
      obtain ⟨field_name, field_config⟩ := hd
      intro st st2 rows h
      simp only [extract_section] at h
      split at h
      · simp at h
      · split at h
        · split at h
          · simp at h
          · rename_i v hv rows1 st3 hrec
            simp only [Except.ok.injEq, Prod.mk.injEq] at h
            obtain ⟨h1, h2⟩ := h
            subst h2
            obtain ⟨k1, k2, k3, k4⟩ := ih _ _ _ hrec
            simp only at k2 k3 k4
            refine ⟨?_, ?_, ?_, ?_⟩
            · rw [← h1]
              simp [k1]
            · simp only [List.length_cons]
              omega
            · simp only [List.length_cons]
              omega
            · rw [k4]
        · split at h
          · simp at h
          · rename_i v hv rows1 st3 hrec
            simp only [Except.ok.injEq, Prod.mk.injEq] at h
            obtain ⟨h1, h2⟩ := h
            subst h2
            obtain ⟨k1, k2, k3, k4⟩ := ih _ _ _ hrec
            simp only [List.length_append, List.length_cons, List.length_nil] at k2 k3 k4
            refine ⟨?_, ?_, ?_, ?_⟩
            · rw [← h1]
              simp [k1]
            · simp only [List.length_cons]
              omega
            · simp only [List.length_cons]
              omega
            · rw [k4]

theorem extract_sections_ok (text : String) (schema : Schema) :
    ∀ (st st2 : Statistics) (secs : List (String × List (String × String))),
      extract_sections text schema st = Except.ok (secs, st2) →
      secs.map (fun sv => (sv.1, sv.2.map Prod.fst))
          = schema.map (fun sec => (sec.1, sec.2.map Prod.fst))
      ∧ st2.total_fields = st.total_fields + fieldCount schema
      ∧ st2.extracted_fields + st2.missing_fields.length
          = st.extracted_fields + st.missing_fields.length + fieldCount schema
      ∧ st2.extraction_rate = st.extraction_rate := by
  induction schema with
  | nil =>
      intro st st2 secs h
      simp only [extract_sections, Except.ok.injEq, Prod.mk.injEq] at h
      obtain ⟨h1, h2⟩ := h
      subst h1
      subst h2
      simp [fieldCount]
  | cons sec rest ih =>
      obtain ⟨sn, fields⟩ := sec
      intro st st2 secs h
      simp only [extract_sections] at h
      split at h
      · simp at h
      · rename_i rows1 st3 hsec
        split at h
        · simp at h
        · rename_i secs1 st4 hrest
          simp only [Except.ok.injEq, Prod.mk.injEq] at h
          obtain ⟨h1, h2⟩ := h
          subst h2
          obtain ⟨a1, a2, a3, a4⟩ := extract_section_ok text sn fields _ _ _ hsec
          obtain ⟨b1, b2, b3, b4⟩ := ih _ _ _ hrest
          refine ⟨?_, ?_, ?_, ?_⟩
          · rw [← h1]
            simp [a1, b1]
          · simp only [fieldCount]
            omega
          · simp only [fieldCount]
            omega
          · rw [b4, a4]

theorem pyDictSet_append (k : String) (v : TopVal) (d : List (String × TopVal))
    (h : ∀ kv ∈ d, kv.1 ≠ k) : pyDictSet k v d = d ++ [(k, v)] := by
  induction d with
  | nil => rfl
  | cons kv rest ih =>
      obtain ⟨k1, v1⟩ := kv
      have hk : k1 ≠ k := h (k1, v1) (List.mem_cons_self _ _)
      simp only [pyDictSet, if_neg hk, List.cons_append]
      rw [ih (fun kv2 hkv => h kv2 (List.mem_cons_of_mem _ hkv))]

theorem getStats_pyDictSet (s : Statistics) (d : List (String × TopVal)) :
    getStats (pyDictSet "_statistics" (TopVal.stats s) d) = some s := by
  induction d with
  | nil => rfl
  | cons kv rest ih =>
      obtain ⟨k1, v1⟩ := kv
      by_cases hk : k1 = "_statistics"
      · subst hk
        simp [pyDictSet, getStats]
      · simp [pyDictSet, getStats, hk, ih]

theorem rate_1_1 : computed_rate 1 1 = 100 := by
  norm_num [computed_rate, pyRound2, roundHalfEven]

theorem rate_0_1 : computed_rate 0 1 = 0 := by
  norm_num [computed_rate, pyRound2, roundHalfEven]

theorem computed_rate_zero (t : Nat) : computed_rate 0 t = 0 := by
  norm_num [computed_rate, pyRound2, roundHalfEven]

theorem run_hit : extract_all_fields numSchema ⟨""⟩ (some "NUM: 4521") =
    (Except.ok [("declaration", TopVal.fields [("number", "4521")]),
      ("_statistics", TopVal.stats ⟨1, 1, [], 100⟩)], ⟨"NUM: 4521"⟩) := by
  simp [extract_all_fields, extract_sections, extract_section, extract_field,
    extract_field_go, numSchema, numCfg, numPat, rawCandidate, pyTruthy, pyDictSet,
    rate_1_1, (by decide : normalize_value "4521" = "4521")]

theorem run_stats_schema : extract_all_fields statsSchema ⟨""⟩ (some "t") =
    (Except.ok statsSchemaOut, ⟨"t"⟩) := by
  simp [extract_all_fields, extract_sections, extract_section, extract_field,
    extract_field_go, statsSchema, statsSchemaOut, neverPat, pyTruthy, pyDictSet,
    rate_0_1]

/-- C3 corrected: for every schema none of whose sections is itself named
"_statistics", and every text and stored-text state on which extraction completes, the
returned dict holds exactly one entry per declared field, section by section in schema
order — no more, no fewer — followed only by the "_statistics" entry; absent fields
are present with the empty-string marker since every field entry carries a string. -/
theorem C3_total_coverage (schema : Schema) (st0 : ExtractorState) (text? : Option String)
    (out : List (String × TopVal))
    (hns : ∀ sec ∈ schema, sec.1 ≠ "_statistics")
    (hok : (extract_all_fields schema st0 text?).1 = Except.ok out) :
    out.map (fun kv => (kv.1, topKeys kv.2))
      = schema.map (fun sec => (sec.1, some (sec.2.map Prod.fst)))
          ++ [("_statistics", none)] := by
  simp only [extract_all_fields] at hok
  split at hok
  · simp at hok
  · rename_i secs stats hsecs
    simp only [Except.ok.injEq] at hok
    obtain ⟨k1, k2, k3, k4⟩ := extract_sections_ok _ _ _ _ _ hsecs
    have hnames : secs.map Prod.fst = schema.map Prod.fst := by
      have h2 := congrArg (List.map Prod.fst) k1
      simpa [List.map_map, Function.comp] using h2
    have hne : ∀ kv ∈ secs.map (fun sv => (sv.1, TopVal.fields sv.2)),
        kv.1 ≠ "_statistics" := by
      intro kv hkv
      obtain ⟨sv, hsv, rfl⟩ := List.mem_map.mp hkv
      have hmem : sv.1 ∈ schema.map Prod.fst := by
        rw [← hnames]
        exact List.mem_map_of_mem Prod.fst hsv
      obtain ⟨sec, hsec, hfst⟩ := List.mem_map.mp hmem
      intro hbad
      exact hns sec hsec (by rw [hfst, hbad])
    rw [pyDictSet_append _ _ _ hne] at hok
    rw [← hok]
    simp only [List.map_append, List.map_map, List.map_cons, List.map_nil]
    have h3 := congrArg (List.map (fun kv : String × List String => (kv.1, some kv.2))) k1
    simp only [List.map_map] at h3
    refine congrArg₂ (· ++ ·) ?_ rfl
    simpa [Function.comp, topKeys] using h3

/-- C3 counterexample: on a schema whose single section is literally named
"_statistics" (one field f, one never-matching rule), the final assignment
results["_statistics"] = statistics overwrites the section dict, so the returned dict
has no entry at all for the declared field f — the claim promises exactly one. -/
theorem C3_counterexample :
    (extract_all_fields statsSchema ⟨""⟩ (some "t")).1 = Except.ok statsSchemaOut
    ∧ hasFieldEntry statsSchemaOut "_statistics" "f" = false := by
  constructor
  · rw [run_stats_schema]
  · decide

/-- Witness for C3 on the spec scenario schema and text. -/
theorem C3_witness :
    ([("declaration", TopVal.fields [("number", "4521")]),
      ("_statistics", TopVal.stats ⟨1, 1, [], 100⟩)].map (fun kv => (kv.1, topKeys kv.2)))
      = numSchema.map (fun sec => (sec.1, some (sec.2.map Prod.fst)))
          ++ [("_statistics", none)] :=
  C3_total_coverage numSchema ⟨""⟩ (some "NUM: 4521")
    [("declaration", TopVal.fields [("number", "4521")]),
     ("_statistics", TopVal.stats ⟨1, 1, [], 100⟩)]
    (by decide) (by rw [run_hit])

/-- C4: for every schema, text and stored-text state on which extraction completes, the
statistics of the pass satisfy extracted_fields + len(missing_fields) = total_fields,
and extraction_rate = round(extracted_fields / total_fields * 100, 2) computed as the
exact rational with round-half-to-even, with rate 0 when total_fields is 0 rather than
a division fault. -/
theorem C4_statistics (schema : Schema) (st0 : ExtractorState) (text? : Option String)
    (out : List (String × TopVal)) (stats : Statistics)
    (hok : (extract_all_fields schema st0 text?).1 = Except.ok out)
    (hget : getStats out = some stats) :
    stats.extracted_fields + stats.missing_fields.length = stats.total_fields
    ∧ stats.extraction_rate = (if stats.total_fields = 0 then 0
        else pyRound2 ((stats.extracted_fields : ℚ) / (stats.total_fields : ℚ) * 100)) := by
  simp only [extract_all_fields] at hok
  split at hok
  · simp at hok
  · rename_i secs stats0 hsecs
    simp only [Except.ok.injEq] at hok
    obtain ⟨k1, k2, k3, k4⟩ := extract_sections_ok _ _ _ _ _ hsecs
    simp only [List.length_nil] at k2 k3
    rw [← hok] at hget
    rw [getStats_pyDictSet] at hget
    have hstats := (Option.some.injEq _ _).mp hget.symm
    subst hstats
    by_cases hz : stats0.total_fields > 0
    · rw [if_pos hz]
      constructor
      · show stats0.extracted_fields + stats0.missing_fields.length = stats0.total_fields
        omega
      · show computed_rate stats0.extracted_fields stats0.total_fields
            = if stats0.total_fields = 0 then 0
              else pyRound2 ((stats0.extracted_fields : ℚ) / (stats0.total_fields : ℚ) * 100)
        rw [if_neg (by omega : ¬ (stats0.total_fields = 0))]
        rfl
    · rw [if_neg hz]
      have hz0 : stats0.total_fields = 0 := by omega
      constructor
      · omega
      · rw [if_pos hz0]
        exact k4

/-- Witness for C4 on the spec scenario schema and text: one field, one extracted,
no missing, rate 100. -/
theorem C4_witness :
    (⟨1, 1, [], 100⟩ : Statistics).extracted_fields
        + (⟨1, 1, [], 100⟩ : Statistics).missing_fields.length
        = (⟨1, 1, [], 100⟩ : Statistics).total_fields
    ∧ (⟨1, 1, [], 100⟩ : Statistics).extraction_rate
        = (if (⟨1, 1, [], 100⟩ : Statistics).total_fields = 0 then 0
           else pyRound2 (((⟨1, 1, [], 100⟩ : Statistics).extracted_fields : ℚ)
             / ((⟨1, 1, [], 100⟩ : Statistics).total_fields : ℚ) * 100)) :=
  C4_statistics numSchema ⟨""⟩ (some "NUM: 4521")
    [("declaration", TopVal.fields [("number", "4521")]),
     ("_statistics", TopVal.stats ⟨1, 1, [], 100⟩)]
    ⟨1, 1, [], 100⟩ (by rw [run_hit]) (by decide)

/-- C6 corrected: when the tabular store does not exist, a header row derived from the
keys of the row being appended is written first, then its data row; when the store
already exists, only the data row is appended and the stored header is never rewritten
— but that data row is produced from the keys of the row itself (csv.DictWriter gets
fieldnames = flat_data.keys()), so a later row whose key set differs writes cells for
its own keys instead of being restricted to the frozen column set. -/
theorem C6_csv_append (flat_data : List (String × String)) (rows : List (List String)) :
    append_to_master_csv flat_data none
        = [flat_data.map Prod.fst, flat_data.map Prod.snd]
    ∧ append_to_master_csv flat_data (some rows) = rows ++ [flat_data.map Prod.snd] :=
  ⟨rfl, rfl⟩

/-- C6 counterexample: appending the row a=1, b=2 to a store whose frozen header is the
single column a emits the cell "2" of the new key b (a two-cell row), instead of the
projection onto the frozen column set that the claim describes (which would be the
one-cell row "1"). -/
theorem C6_counterexample :
    append_to_master_csv [("a", "1"), ("b", "2")] (some [["a"]]) = [["a"], ["1", "2"]]
    ∧ specProjectRow ["a"] [("a", "1"), ("b", "2")] = ["1"]
    ∧ [["a"], ["1", "2"]] ≠ [["a"], ["1"]] := by
  decide

/-- C7 corrected: reading the history returns the last 50 entries of the structured
store (all of them when fewer than 50 exist), most recent first; a missing store and a
store whose parse raises both give the empty list, and the function is total, so no
read failure reaches the caller. The count 50 is hard-coded: no caller-chosen n exists. -/
theorem C7_read_recent {α : Type} (data : List α) :
    get_history (StoreState.valid data) = (takeLast 50 data).reverse
    ∧ get_history (StoreState.valid data) = data.reverse.take 50
    ∧ get_history (StoreState.missing : StoreState α) = []
    ∧ get_history (StoreState.corrupt : StoreState α) = [] := by
  refine ⟨rfl, ?_, rfl, rfl⟩
  show (takeLast 50 data).reverse = data.reverse.take 50
  exact List.take_reverse.symm

/-- C7 counterexample: with 51 entries in the store, the history read returns only 50
entries, so it is not the n most recently appended entries for every n — at n = 51 the
claim expects all 51, most recent first. -/
theorem C7_counterexample :
    get_history (StoreState.valid (List.range 51)) ≠ (List.range 51).reverse := by
  decide

/-- C8: appending to the structured store reads the existing list (a missing store and
a store whose parse raises are both treated as the empty list, with no exception
escaping since both are explicit cases of the total function), appends the record at
the end, and persists the whole list back, so every previously persisted entry is
followed by the new one. -/
theorem C8_append_structured {α : Type} (record : α) (data : List α) :
    append_to_master_json record (StoreState.valid data) = data ++ [record]
    ∧ append_to_master_json record (StoreState.missing : StoreState α) = [record]
    ∧ append_to_master_json record (StoreState.corrupt : StoreState α) = [record] :=
  ⟨rfl, rfl, rfl⟩

theorem joinPath_append (p : List String) (k : String) (hne : p ≠ []) :
    joinPath (p ++ [k]) = joinPath p ++ "_" ++ k := by
  induction p with
  | nil => exact absurd rfl hne
  | cons x q ih =>
      cases q with
      | nil => rfl
      | cons y r =>
          have ihr := ih (by simp)
          show x ++ "_" ++ joinPath ((y :: r) ++ [k])
              = (x ++ "_" ++ joinPath (y :: r)) ++ "_" ++ k
          rw [ihr]
          simp [String.append_assoc]

theorem joinPath_ne_empty (p : List String) (hne : p ≠ []) (hp : ∀ s ∈ p, s ≠ "") :
    joinPath p ≠ "" := by
  cases p with
  | nil => exact absurd rfl hne
  | cons x q =>
      cases q with
      | nil => exact hp x (by simp)
      | cons y r =>
          show x ++ "_" ++ joinPath (y :: r) ≠ ""
          intro hbad
          have hlen := congrArg String.length hbad
          have h1 : "_".length = 1 := rfl
          have h0 : "".length = 0 := rfl
          simp only [String.length_append, h1, h0] at hlen
          omega

theorem joinKey_joinPath (p : List String) (k : String) (hp : ∀ s ∈ p, s ≠ "") :
    joinKey "_" (joinPath p) k = joinPath (p ++ [k]) := by
  cases p with
  | nil => simp [joinKey, joinPath]
  | cons x q =>
      simp only [joinKey, if_pos]
      rw [if_pos (joinPath_ne_empty (x :: q) (by simp) hp),
        joinPath_append (x :: q) k (by simp)]

mutual

theorem flattenVal_spec {α : Type} (p : List String) (k : String) (v : Nested α)
    (hp : ∀ s ∈ p, s ≠ "") (hk : k ≠ "") (hv : goodKeysVal v = true) :
    flattenVal "_" (joinPath (p ++ [k])) v
      = (leavesVal (p ++ [k]) v).map (fun pa => (joinPath pa.1, pa.2)) :=
  match v with
  | Nested.leaf a => by simp [flattenVal, leavesVal]
  | Nested.node d => by
      have hd : goodKeysEntries d = true := hv
      have hp2 : ∀ s ∈ p ++ [k], s ≠ "" := by
        intro s hs
        rcases List.mem_append.mp hs with h | h
        · exact hp s h
        · rw [List.mem_singleton] at h
          subst h
          exact hk
      simpa [flattenVal, leavesVal] using flattenEntries_spec (p ++ [k]) d hp2 hd

theorem flattenEntries_spec {α : Type} (p : List String) (d : List (String × Nested α))
    (hp : ∀ s ∈ p, s ≠ "") (hd : goodKeysEntries d = true) :
    flattenEntries "_" (joinPath p) d
      = (leavesEntries p d).map (fun pa => (joinPath pa.1, pa.2)) :=
  match d with
  | [] => by simp [flattenEntries, leavesEntries]
  | (k, v) :: rest => by
      have h3 : ((k != "") && goodKeysVal v && goodKeysEntries rest) = true := hd
      simp only [Bool.and_eq_true, bne_iff_ne] at h3
      obtain ⟨⟨hk, hv⟩, hrest⟩ := h3
      have e1 := flattenVal_spec p k v hp hk hv
      have e2 := flattenEntries_spec p rest hp hrest
      simp only [flattenEntries, leavesEntries, List.map_append]
      rw [joinKey_joinPath p k hp, e1, e2]

end

/-- C9 corrected: on nested mappings all of whose keys are non-empty strings,
flattening produces the single-level mapping whose keys are the nesting paths joined
with the separator "_" (one join per nesting level, at arbitrary depth) and whose
values are the leaf values in traversal order; in particular the two-field example
flattens as the claim states. An empty key is the exception: the code skips the join
when the accumulated parent key is empty. -/
theorem C9_flatten {α : Type} (d : List (String × Nested α))
    (h : goodKeysEntries d = true) :
    flatten_dict d = specFlatten d
    ∧ flatten_dict [("a", Nested.node [("b", Nested.leaf "1"), ("c", Nested.leaf "2")])]
        = [("a_b", "1"), ("a_c", "2")] := by
  constructor
  · have e := flattenEntries_spec [] d (by simp) h
    simpa [flatten_dict, specFlatten, joinPath] using e
  · rfl

/-- C9 counterexample: with the empty string as the top-level key, the code emits the
key "b" for the leaf below it (the empty parent key skips the separator), while the
claimed path-join rule (one "_" per nesting level) gives "_b". -/
theorem C9_counterexample :
    flatten_dict [("", Nested.node [("b", Nested.leaf "1")])] = [("b", "1")]
    ∧ specFlatten [("", Nested.node [("b", Nested.leaf "1")])] = [("_b", "1")]
    ∧ ([("b", "1")] : List (String × String)) ≠ [("_b", "1")] :=
  ⟨rfl, rfl, by decide⟩

/-- Witness for C9 on the example mapping of the claim. -/
theorem C9_witness :
    flatten_dict [("a", Nested.node [("b", Nested.leaf "1"), ("c", Nested.leaf "2")])]
      = specFlatten [("a", Nested.node [("b", Nested.leaf "1"), ("c", Nested.leaf "2")])]
    ∧ flatten_dict [("a", Nested.node [("b", Nested.leaf "1"), ("c", Nested.leaf "2")])]
        = [("a_b", "1"), ("a_c", "2")] :=
  C9_flatten [("a", Nested.node [("b", Nested.leaf "1"), ("c", Nested.leaf "2")])]
    (by decide)

theorem extract_field_go_empty (ps : List RePattern) (h : ∀ p ∈ ps, emptyTextOk p) :
    extract_field_go "" ps = Except.ok none := by
  induction ps with
  | nil => rfl
  | cons p rest ih =>
      have hp := h p (List.mem_cons_self p rest)
      have hrest : ∀ q ∈ rest, emptyTextOk q :=
        fun q hq => h q (List.mem_cons_of_mem p hq)
      rcases hp with hnm | ⟨gs, hm, hgs⟩
      · simp only [extract_field_go, hnm]
        exact ih hrest
      · have hval : ∀ raw, rawCandidate "" gs = some raw → raw = "" := by
          intro raw hr
          cases gs with
          | nil =>
              simp only [rawCandidate, Option.some.injEq] at hr
              exact hr.symm
          | cons g gs2 =>
              cases g with
              | none => simp [rawCandidate] at hr
              | some s =>
                  have hmem := hgs (some s) (List.mem_cons_self _ _)
                  rcases hmem with h1 | h1
                  · exact absurd h1 (by simp)
                  · simp only [rawCandidate, Option.some.injEq] at hr
                    rw [← hr]
                    exact (Option.some.injEq _ _).mp h1
        simp only [extract_field_go, hm]
        cases hrc : rawCandidate "" gs with
        | none =>
            simpa [hrc] using ih hrest
        | some raw =>
            have hraw := hval raw hrc
            subst hraw
            simpa [hrc, (by decide : normalize_value "" = "")] using ih hrest

theorem extract_section_empty (sn : String) (fields : List (String × FieldConfig)) :
    ∀ st : Statistics,
      (∀ fc ∈ fields, ∀ p ∈ (fc.2).patterns, emptyTextOk p) →
      extract_section "" sn fields st =
        Except.ok (fields.map (fun fc => (fc.1, "")),
          { st with total_fields := st.total_fields + fields.length,
                    missing_fields := st.missing_fields
                      ++ fields.map (fun fc => sn ++ "." ++ fc.1) }) := by
  induction fields with
  | nil =>
      intro st h
      simp [extract_section]
  | cons hd tl ih =>
      obtain ⟨fn, fc⟩ := hd
      intro st h
      have hfe : extract_field "" fc = Except.ok none :=
        extract_field_go_empty fc.patterns (h (fn, fc) (List.mem_cons_self _ _))
      have htl : ∀ fc2 ∈ tl, ∀ p ∈ (fc2.2).patterns, emptyTextOk p :=
        fun fc2 h2 => h fc2 (List.mem_cons_of_mem _ h2)
      simp only [extract_section, hfe, pyTruthy]
      rw [if_neg (by decide : ¬ (false = true))]
      rw [ih _ htl]
      simp only [List.map_cons, List.length_cons, Except.ok.injEq, Prod.mk.injEq,
        Statistics.mk.injEq, List.append_assoc, List.singleton_append, true_and,
        and_true]
      try omega

theorem extract_sections_empty (schema : Schema) :
    ∀ st : Statistics,
      (∀ sec ∈ schema, ∀ fc ∈ sec.2, ∀ p ∈ (fc.2).patterns, emptyTextOk p) →
      extract_sections "" schema st =
        Except.ok (schema.map (fun sec => (sec.1, sec.2.map (fun fc => (fc.1, "")))),
          { st with total_fields := st.total_fields + fieldCount schema,
                    missing_fields := st.missing_fields ++ qualifiedNames schema }) := by
  induction schema with
  | nil =>
      intro st h
      simp [extract_sections, fieldCount, qualifiedNames]
  | cons sec rest ih =>
      obtain ⟨sn, fields⟩ := sec
      intro st h
      have hsec := extract_section_empty sn fields st
        (fun fc hfc => h (sn, fields) (List.mem_cons_self _ _) fc hfc)
      have hrest : ∀ sec2 ∈ rest, ∀ fc ∈ sec2.2, ∀ p ∈ (fc.2).patterns, emptyTextOk p :=
        fun sec2 h2 => h sec2 (List.mem_cons_of_mem _ h2)
      simp only [extract_sections, hsec]
      rw [ih _ hrest]
      simp only [List.map_cons, Except.ok.injEq, Prod.mk.injEq, Statistics.mk.injEq,
        fieldCount, qualifiedNames, List.append_assoc, true_and, and_true]
      try omega

/-- C10: calling extract_all_fields with an explicit text stores that text on the
instance (self.extracted_text) whatever the outcome; a no-argument call after it runs
on the stored text and returns exactly what re-supplying the text returns; and on a
fresh instance (extracted_text still the "" set by the constructor) a no-argument call
runs on the empty string and, for any schema whose rules behave like re.search on ""
(no match, or an empty-span match), succeeds and reports every schema field absent
with zero counts instead of failing. -/
theorem C10_text_state (schema : Schema) (st0 : ExtractorState) (t : String)
    (h : ∀ sec ∈ schema, ∀ fc ∈ sec.2, ∀ p ∈ (fc.2).patterns, emptyTextOk p) :
    (extract_all_fields schema st0 (some t)).2 = ⟨t⟩
    ∧ extract_all_fields schema (extract_all_fields schema st0 (some t)).2 none
        = extract_all_fields schema st0 (some t)
    ∧ extract_all_fields schema init_state none
        = (Except.ok (pyDictSet "_statistics"
            (TopVal.stats ⟨fieldCount schema, 0, qualifiedNames schema, 0⟩)
            (schema.map (fun sec => (sec.1,
              TopVal.fields (sec.2.map (fun fc => (fc.1, ""))))))), init_state) := by
  have hsnd : (extract_all_fields schema st0 (some t)).2 = ⟨t⟩ := by
    cases hE : extract_sections t schema ⟨0, 0, [], 0⟩ with
    | error e => simp [extract_all_fields, hE]
    | ok pr => simp [extract_all_fields, hE]
  refine ⟨hsnd, ?_, ?_⟩
  · rw [hsnd]
    rfl
  · have hs := extract_sections_empty schema ⟨0, 0, [], 0⟩ h
    simp only [extract_all_fields, init_state, hs]
    split
    · rename_i hpos
      simp only [Nat.zero_add, List.nil_append, computed_rate_zero, List.map_map]
      rfl
    · simp only [Nat.zero_add, List.nil_append, List.map_map]
      rfl

/-- Witness for C10 on the spec scenario schema: an explicit call with "NUM: 4521"
stores the text, the later no-argument call reproduces the same result, and a fresh
instance reports the single field absent on the empty text. -/
theorem C10_witness :
    (extract_all_fields numSchema ⟨"abc"⟩ (some "NUM: 4521")).2 = ⟨"NUM: 4521"⟩
    ∧ extract_all_fields numSchema
          (extract_all_fields numSchema ⟨"abc"⟩ (some "NUM: 4521")).2 none
        = extract_all_fields numSchema ⟨"abc"⟩ (some "NUM: 4521")
    ∧ extract_all_fields numSchema init_state none
        = (Except.ok (pyDictSet "_statistics"
            (TopVal.stats ⟨fieldCount numSchema, 0, qualifiedNames numSchema, 0⟩)
            (numSchema.map (fun sec => (sec.1,
              TopVal.fields (sec.2.map (fun fc => (fc.1, ""))))))), init_state) :=
  C10_text_state numSchema ⟨"abc"⟩ "NUM: 4521" (by
    intro sec hs fc hf p hp
    simp only [numSchema, List.mem_singleton] at hs
    subst hs
    simp only [List.mem_singleton] at hf
    subst hf
    simp only [numCfg, List.mem_singleton] at hp
    subst hp
    exact Or.inl (by decide))

end ProjectOcr
